import Mathlib

/-!
Shallow embedding of the minesweeper core (grid parser, game state engine,
renderer) of this repository, together with theorems checking the
natural-language specification against it.

Sources embedded:
  * src/game.rs         : Tile, Visibility, GameOutcome, Game and its
                          operations (get, reveal, reveal_all, to_string,
                          num_tiles, dimensions, from_input).
  * src/game/parse_grid.rs : parse_grid, compute_adj_bombs, adj_bombs.

Modelling conventions:
  * A text input is a list of lines, each line a list of characters, which is
    what the Rust code sees after BufRead::lines.
  * Machine integers (u32/usize) are modelled as Nat.  None of the properties
    below probe the 2^32 overflow boundary, and the single subtraction in the
    code (num_tiles - num_bombs) never underflows on parser-produced games,
    where num_bombs <= num_tiles; Nat subtraction agrees with u32 subtraction
    there.
  * A Rust panic (out-of-bounds indexing) is modelled by returning none.
  * io::Error values produced by the parser are modelled by the ParseError
    inductive; the three messages the code can produce are the three
    constructors, carrying exactly the data interpolated into the message.
-/

namespace Mines

instance {ε α : Type} [DecidableEq ε] [DecidableEq α] : DecidableEq (Except ε α) := fun a b =>
  match a, b with
  | Except.ok x, Except.ok y => decidable_of_iff (x = y) (by simp)
  | Except.ok _, Except.error _ => isFalse (by simp)
  | Except.error _, Except.ok _ => isFalse (by simp)
  | Except.error x, Except.error y => decidable_of_iff (x = y) (by simp)

/-- Visibility of a tile (src/game.rs, enum Visibility). -/
inductive Visibility
  | Hidden
  | Flagged
  | Revealed
deriving DecidableEq

/-- Result of a finished game (src/game.rs, enum GameOutcome). -/
inductive GameOutcome
  | Win
  | Loss
deriving DecidableEq

/-- A tile of the grid (src/game.rs, struct Tile). -/
structure Tile where
  has_bomb : Bool
  adj_bombs : Nat
  visibility : Visibility
deriving DecidableEq

/-- Tile::new: a fresh, hidden tile; adj_bombs is not yet computed. -/
def Tile.new (b : Bool) : Tile :=
  { has_bomb := b, adj_bombs := 0, visibility := Visibility.Hidden }

/-- A (row, col) coordinate (src/game.rs, struct Point). -/
structure Point where
  row : Nat
  col : Nat
deriving DecidableEq

/-- The grid of tiles; the Rust Grid newtype passes indexing through to the
underlying Vec of Vecs, so we model it by the matrix itself. -/
abbrev Grid := List (List Tile)

/-- Tile lookup with a default, mirroring direct (panicking) indexing at
places where the code has already ensured the indices are in range. -/
def tileAt (g : Grid) (r c : Nat) : Tile :=
  (g.getD r []).getD c (Tile.new false)

/-- The three error messages parse_grid can produce
(src/game/parse_grid.rs), with the data each message interpolates. -/
inductive ParseError
  | invalidChar (c : Char)
  | jaggedRow (expected idx actual : Nat)
  | emptyGrid
deriving DecidableEq

/-- The tile parsed from one input character (only reached for valid chars). -/
def rowOf (l : List Char) : List Tile :=
  l.map (fun c => Tile.new (c == 'x'))

/-- Number of bomb characters in one input line. -/
def countX (l : List Char) : Nat :=
  l.countP (fun c => c == 'x')

/-- The inner character loop of parse_grid: turn one line into a row of
tiles, counting bombs, failing on the first character that is neither
the bomb sentinel x nor the empty sentinel dot. -/
def parseRowAcc : List Char → Except ParseError (List Tile × Nat)
  | [] => Except.ok ([], 0)
  | c :: cs =>
    if c = 'x' then
      match parseRowAcc cs with
      | Except.ok (ts, nb) => Except.ok (Tile.new true :: ts, nb + 1)
      | Except.error e => Except.error e
    else if c = '.' then
      match parseRowAcc cs with
      | Except.ok (ts, nb) => Except.ok (Tile.new false :: ts, nb)
      | Except.error e => Except.error e
    else
      Except.error (ParseError.invalidChar c)

/-- The line loop of parse_grid: accumulate rows, checking each new row
against the length of the first row already in the accumulator. -/
def parseLines : List (List Char) → Grid → Nat → Except ParseError (Grid × Nat)
  | [], grid, nb => Except.ok (grid, nb)
  | l :: ls, grid, nb =>
    match parseRowAcc l with
    | Except.error e => Except.error e
    | Except.ok (row, rb) =>
      if grid.length > 0 ∧ (grid.headD []).length ≠ row.length then
        Except.error (ParseError.jaggedRow (grid.headD []).length grid.length row.length)
      else
        parseLines ls (grid ++ [row]) (nb + rb)

/-- The offsets -1, 0, 1 iterated over by the adjacency loops. -/
def offsets : List Int := [-1, 0, 1]

/-- Does cell (x, y) hold a bomb?  Exactly the guard of the adjacency loop in
adj_bombs: both coordinates in range (the column bound taken from the first
row, as in the code) and the tile's bomb flag set. -/
def bombAt (g : Grid) (x y : Int) : Bool :=
  decide (0 ≤ x) && decide (x < (g.length : Int)) &&
  decide (0 ≤ y) && decide (y < ((g.headD []).length : Int)) &&
  (tileAt g x.toNat y.toNat).has_bomb

/-- The inner loop of adj_bombs: scan the three cells of row x around column
j, adding the bombs found to the accumulator. -/
def adjInner (g : Grid) (x : Int) (j : Nat) (acc : Nat) : Nat :=
  offsets.foldl (fun acc2 dj =>
    if bombAt g x ((j : Int) + dj) then acc2 + 1 else acc2) acc

/-- adj_bombs (src/game/parse_grid.rs): scan all nine cells of the 3x3 block
around (i, j), the center included ("We do include this tile itself, if it
is a bomb"), counting in-bounds bombs. -/
def adjBombs (g : Grid) (i j : Nat) : Nat :=
  offsets.foldl (fun acc di => adjInner g ((i : Int) + di) j acc) 0

/-- The inner loop of compute_adj_bombs: rewrite the adj_bombs field of each
tile of one row.  The adjacency counts only read the has_bomb flags, which
the sweep never changes, so reading them from the original grid g is
faithful to the in-place mutation in the code. -/
def setAdjRow (g : Grid) (i : Nat) : List Tile → Nat → List Tile
  | [], _ => []
  | t :: ts, j => { t with adj_bombs := adjBombs g i j } :: setAdjRow g i ts (j + 1)

/-- The outer loop of compute_adj_bombs. -/
def setAdjRows (g : Grid) : Grid → Nat → Grid
  | [], _ => []
  | r :: rs, i => setAdjRow g i r 0 :: setAdjRows g rs (i + 1)

/-- compute_adj_bombs (src/game/parse_grid.rs). -/
def computeAdjBombs (g : Grid) : Grid :=
  setAdjRows g g 0

/-- Return value of parse_grid. -/
structure ParseResult where
  grid : Grid
  num_bombs : Nat
deriving DecidableEq

/-- parse_grid (src/game/parse_grid.rs): run the line loop, reject an empty
grid, then fill in the adjacency counts. -/
def parse_grid (lines : List (List Char)) : Except ParseError ParseResult :=
  match parseLines lines [] 0 with
  | Except.error e => Except.error e
  | Except.ok (grid, nb) =>
    if grid.length = 0 ∨ (grid.headD []).length = 0 then
      Except.error ParseError.emptyGrid
    else
      Except.ok { grid := computeAdjBombs grid, num_bombs := nb }

/-- The game state (src/game.rs, struct Game). -/
structure Game where
  grid : Grid
  num_bombs : Nat
  num_revealed : Nat
  game_over : Option GameOutcome
deriving DecidableEq

/-- The body of Game::from_input after a successful parse: a fresh game. -/
def Game.fromParse (r : ParseResult) : Game :=
  { grid := r.grid, num_bombs := r.num_bombs, num_revealed := 0, game_over := none }

/-- Game::from_input: parse, then wrap into a fresh game; a parse error
propagates unchanged. -/
def Game.fromInput (lines : List (List Char)) : Except ParseError Game :=
  (parse_grid lines).map Game.fromParse

/-- Game::dimensions: (height, width); the width is read off the first row. -/
def Game.dimensions (g : Game) : Nat × Nat :=
  (g.grid.length, (g.grid.headD []).length)

/-- Game::num_tiles: height times width. -/
def Game.numTiles (g : Game) : Nat :=
  g.grid.length * (g.grid.headD []).length

/-- Game::get: the tile at the point, or none when either index is out of
bounds (the column is checked against the addressed row's own length). -/
def Game.get (g : Game) (p : Point) : Option Tile :=
  match g.grid.get? p.row with
  | none => none
  | some row => row.get? p.col

/-- Game::reveal.  Out-of-bounds indexing panics in the code; the panic is
modelled by none.  Otherwise: mark the tile revealed and bump the counter
unless it was already revealed, then set the outcome, Loss taking
precedence over the win check. -/
def Game.reveal (g : Game) (p : Point) : Option Game :=
  match g.grid.get? p.row with
  | none => none
  | some row =>
    match row.get? p.col with
    | none => none
    | some tile =>
      let tile2 := if tile.visibility = Visibility.Revealed then tile
                   else { tile with visibility := Visibility.Revealed }
      let nr := if tile.visibility = Visibility.Revealed then g.num_revealed
                else g.num_revealed + 1
      let go : Option GameOutcome :=
        if tile2.has_bomb then some GameOutcome.Loss
        else if nr = g.numTiles - g.num_bombs then some GameOutcome.Win
        else g.game_over
      some { grid := g.grid.set p.row (row.set p.col tile2),
             num_bombs := g.num_bombs, num_revealed := nr, game_over := go }

/-- Game::reveal_all: force every tile to Revealed; nothing else is touched. -/
def Game.revealAll (g : Game) : Game :=
  { g with grid := g.grid.map (fun row => row.map
      (fun t => { t with visibility := Visibility.Revealed })) }

/-- Tile::to_char.  For the digit branch the code asserts adj_bombs < 10 and
emits the first character of the decimal representation, which for numbers
below ten is Nat.digitChar; every tile this development renders comes from
parse_grid, where adj_bombs is at most 9, so the assertion never fires. -/
def Tile.toChar (t : Tile) : Char :=
  match t.visibility with
  | Visibility.Hidden => '.'
  | Visibility.Flagged => '*'
  | Visibility.Revealed =>
    if t.has_bomb then '#'
    else if t.adj_bombs = 0 then ' '
    else Nat.digitChar t.adj_bombs

/-- The rows after the first in Game::to_string: each preceded by a newline. -/
def renderAux : Grid → List Char
  | [] => []
  | r :: rs => '\n' :: (r.map Tile.toChar ++ renderAux rs)

/-- Game::to_string: rows of characters joined by newlines, no trailing
newline; the string is modelled by its list of characters. -/
def Game.render (g : Game) : List Char :=
  match g.grid with
  | [] => []
  | r :: rs => r.map Tile.toChar ++ renderAux rs

/-- Apply a sequence of reveals; a panic (out-of-bounds reveal) anywhere in
the sequence is modelled by none. -/
def playOpt (g : Game) : List Point → Option Game
  | [] => some g
  | p :: ps =>
    match g.reveal p with
    | none => none
    | some g2 => playOpt g2 ps

/-- The documented driver protocol: the loop inspects the outcome after each
reveal and stops once it is set, so no reveal is ever applied to a finished
game. -/
def playDriver (g : Game) : List Point → Option Game
  | [] => some g
  | p :: ps =>
    if g.game_over.isSome then some g
    else
      match g.reveal p with
      | none => none
      | some g2 => playDriver g2 ps

/-- Modelled from the claim's words, for comparison with the code's
adjacency count: the eight cells of the 3x3 block centered on the tile,
the center itself excluded. -/
def neighborOffsets : List (Int × Int) :=
  [(-1, -1), (-1, 0), (-1, 1), (0, -1), (0, 1), (1, -1), (1, 0), (1, 1)]

/-- Modelled from the claim's words: the number of bombs in the
8-neighborhood of (i, j), clipped to the grid bounds, excluding the tile
itself. -/
def specAdjBombs (g : Grid) (i j : Nat) : Nat :=
  neighborOffsets.countP (fun d => bombAt g ((i : Int) + d.1) ((j : Int) + d.2))

/-- Total number of tiles whose bomb flag is set. -/
def countBombs (g : Grid) : Nat :=
  (g.map (fun r => r.countP (fun t => t.has_bomb))).sum

/-- A concrete fresh game, parsed from the one-row input x.. (a bomb and two
empty tiles); used by witnesses and counterexamples.  Written as a literal;
the lemma demoGame_eq below checks it against parse_grid. -/
def demoGame : Game :=
  { grid := [[{ has_bomb := true, adj_bombs := 1, visibility := Visibility.Hidden },
              { has_bomb := false, adj_bombs := 1, visibility := Visibility.Hidden },
              { has_bomb := false, adj_bombs := 0, visibility := Visibility.Hidden }]],
    num_bombs := 1, num_revealed := 0, game_over := none }

/-- The parse result of the one-tile input with a dot: a single bomb-free
tile with adjacency zero. -/
def demoParseDot : ParseResult :=
  { grid := [[{ has_bomb := false, adj_bombs := 0, visibility := Visibility.Hidden }]],
    num_bombs := 0 }

/-- The parse result of the one-tile input with a bomb: its adjacency count
is 1 because adj_bombs includes the tile itself. -/
def demoParseX : ParseResult :=
  { grid := [[{ has_bomb := true, adj_bombs := 1, visibility := Visibility.Hidden }]],
    num_bombs := 1 }

/-- demoGame with the outcome already set to Loss; used to witness outcome
stability. -/
def demoOver : Game :=
  { demoGame with game_over := some GameOutcome.Loss }

/-- The state of demoOver after one further reveal of the middle tile. -/
def demoOverStep : Game :=
  { grid := [[{ has_bomb := true, adj_bombs := 1, visibility := Visibility.Hidden },
              { has_bomb := false, adj_bombs := 1, visibility := Visibility.Revealed },
              { has_bomb := false, adj_bombs := 0, visibility := Visibility.Hidden }]],
    num_bombs := 1, num_revealed := 1, game_over := some GameOutcome.Loss }

/-! ### List helpers -/

theorem headD_eq_getD {α : Type} (l : List α) (d : α) : l.headD d = l.getD 0 d := by
  cases l <;> rfl

theorem length_of_get?_some {α : Type} :
    ∀ (l : List α) (i : Nat) (x : α), l.get? i = some x → i < l.length := by
  intro l
  induction l with
  | nil => intro i x h; simp at h
  | cons a as ih =>
    intro i x h
    cases i with
    | zero => simp
    | succ n =>
      simp only [List.get?_cons_succ] at h
      have := ih n x h
      simpa using Nat.succ_lt_succ this

theorem getD_of_get?_some {α : Type} :
    ∀ (l : List α) (i : Nat) (x d : α), l.get? i = some x → l.getD i d = x := by
  intro l
  induction l with
  | nil => intro i x d h; simp at h
  | cons a as ih =>
    intro i x d h
    cases i with
    | zero => simp_all
    | succ n =>
      simp only [List.get?_cons_succ] at h
      simpa using ih n x d h

theorem getD_set_self {α : Type} :
    ∀ (l : List α) (i : Nat) (a d : α), i < l.length → (l.set i a).getD i d = a := by
  intro l
  induction l with
  | nil => intro i a d h; simp at h
  | cons b bs ih =>
    intro i a d h
    cases i with
    | zero => rfl
    | succ n =>
      simp only [List.length_cons] at h
      simpa [List.set] using ih n a d (Nat.lt_of_succ_lt_succ h)

theorem getD_set_ne {α : Type} :
    ∀ (l : List α) (i j : Nat) (a d : α), i ≠ j → (l.set i a).getD j d = l.getD j d := by
  intro l
  induction l with
  | nil => intro i j a d _; simp [List.set]
  | cons b bs ih =>
    intro i j a d hij
    cases i with
    | zero =>
      cases j with
      | zero => exact absurd rfl hij
      | succ m => rfl
    | succ n =>
      cases j with
      | zero => rfl
      | succ m =>
        have : n ≠ m := fun h => hij (by rw [h])
        simpa [List.set] using ih n m a d this

theorem getD_ge {α : Type} :
    ∀ (l : List α) (i : Nat) (d : α), l.length ≤ i → l.getD i d = d := by
  intro l
  induction l with
  | nil => intro i d _; simp
  | cons a as ih =>
    intro i d h
    cases i with
    | zero => simp at h
    | succ n => simpa using ih n d (by simpa using h)

/-! ### Adjacency counts: decomposition into the nine cell indicators -/

theorem ite_one (b : Bool) : (if b = true then 1 else 0) = b.toNat := by
  cases b <;> rfl

theorem adjInner_eq (g : Grid) (x : Int) (j : Nat) (acc : Nat) :
    adjInner g x j acc
      = acc + (bombAt g x ((j : Int) + -1)).toNat + (bombAt g x ((j : Int) + 0)).toNat
          + (bombAt g x ((j : Int) + 1)).toNat := by
  simp only [adjInner, offsets, List.foldl]
  cases bombAt g x ((j : Int) + -1) <;> cases bombAt g x ((j : Int) + 0) <;>
    cases bombAt g x ((j : Int) + 1) <;> simp

theorem adjBombs_eq (g : Grid) (i j : Nat) :
    adjBombs g i j =
      (bombAt g ((i : Int) + -1) ((j : Int) + -1)).toNat
      + (bombAt g ((i : Int) + -1) ((j : Int) + 0)).toNat
      + (bombAt g ((i : Int) + -1) ((j : Int) + 1)).toNat
      + (bombAt g ((i : Int) + 0) ((j : Int) + -1)).toNat
      + (bombAt g ((i : Int) + 0) ((j : Int) + 0)).toNat
      + (bombAt g ((i : Int) + 0) ((j : Int) + 1)).toNat
      + (bombAt g ((i : Int) + 1) ((j : Int) + -1)).toNat
      + (bombAt g ((i : Int) + 1) ((j : Int) + 0)).toNat
      + (bombAt g ((i : Int) + 1) ((j : Int) + 1)).toNat := by
  simp only [adjBombs, offsets, List.foldl, adjInner_eq]
  omega

theorem specAdjBombs_eq (g : Grid) (i j : Nat) :
    specAdjBombs g i j =
      (bombAt g ((i : Int) + -1) ((j : Int) + -1)).toNat
      + (bombAt g ((i : Int) + -1) ((j : Int) + 0)).toNat
      + (bombAt g ((i : Int) + -1) ((j : Int) + 1)).toNat
      + (bombAt g ((i : Int) + 0) ((j : Int) + -1)).toNat
      + (bombAt g ((i : Int) + 0) ((j : Int) + 1)).toNat
      + (bombAt g ((i : Int) + 1) ((j : Int) + -1)).toNat
      + (bombAt g ((i : Int) + 1) ((j : Int) + 0)).toNat
      + (bombAt g ((i : Int) + 1) ((j : Int) + 1)).toNat := by
  simp only [specAdjBombs, neighborOffsets, List.countP_cons, List.countP_nil, ite_one]
  omega

theorem adjBombs_split (g : Grid) (i j : Nat) :
    adjBombs g i j
      = specAdjBombs g i j + (bombAt g ((i : Int) + 0) ((j : Int) + 0)).toNat := by
  rw [adjBombs_eq, specAdjBombs_eq]
  omega

theorem adjBombs_le_nine (g : Grid) (i j : Nat) : adjBombs g i j ≤ 9 := by
  rw [adjBombs_eq]
  have h1 := Bool.toNat_le (bombAt g ((i : Int) + -1) ((j : Int) + -1))
  have h2 := Bool.toNat_le (bombAt g ((i : Int) + -1) ((j : Int) + 0))
  have h3 := Bool.toNat_le (bombAt g ((i : Int) + -1) ((j : Int) + 1))
  have h4 := Bool.toNat_le (bombAt g ((i : Int) + 0) ((j : Int) + -1))
  have h5 := Bool.toNat_le (bombAt g ((i : Int) + 0) ((j : Int) + 0))
  have h6 := Bool.toNat_le (bombAt g ((i : Int) + 0) ((j : Int) + 1))
  have h7 := Bool.toNat_le (bombAt g ((i : Int) + 1) ((j : Int) + -1))
  have h8 := Bool.toNat_le (bombAt g ((i : Int) + 1) ((j : Int) + 0))
  have h9 := Bool.toNat_le (bombAt g ((i : Int) + 1) ((j : Int) + 1))
  omega

theorem specAdjBombs_le_eight (g : Grid) (i j : Nat) : specAdjBombs g i j ≤ 8 :=
  le_trans (List.countP_le_length _) (by rfl)

theorem bombAt_center (g : Grid) (i j : Nat) (hi : i < g.length)
    (hj : j < (g.headD []).length) :
    bombAt g ((i : Int) + 0) ((j : Int) + 0) = (tileAt g i j).has_bomb := by
  have hx : ((i : Int) + 0) = (i : Int) := by ring
  have hy : ((j : Int) + 0) = (j : Int) := by ring
  rw [hx, hy]
  cases g with
  | nil => simp at hi
  | cons r rs =>
    simp only [List.headD_cons] at hj
    simp only [List.length_cons] at hi
    simp [bombAt, hi, hj]
    intro _
    omega

/-! ### compute_adj_bombs: shape and bomb flags are preserved -/

theorem setAdjRow_length (g : Grid) (i : Nat) :
    ∀ (r : List Tile) (j : Nat), (setAdjRow g i r j).length = r.length := by
  intro r
  induction r with
  | nil => intro j; rfl
  | cons t ts ih => intro j; simp [setAdjRow, ih]

theorem setAdjRows_length (g : Grid) :
    ∀ (rs : Grid) (i : Nat), (setAdjRows g rs i).length = rs.length := by
  intro rs
  induction rs with
  | nil => intro i; rfl
  | cons r rest ih => intro i; simp [setAdjRows, ih]

theorem computeAdjBombs_length (g : Grid) : (computeAdjBombs g).length = g.length :=
  setAdjRows_length g g 0

theorem setAdjRow_getD (g : Grid) (i : Nat) :
    ∀ (r : List Tile) (j0 k : Nat), k < r.length →
      (setAdjRow g i r j0).getD k (Tile.new false)
        = { r.getD k (Tile.new false) with adj_bombs := adjBombs g i (j0 + k) } := by
  intro r
  induction r with
  | nil => intro j0 k h; simp at h
  | cons t ts ih =>
    intro j0 k h
    cases k with
    | zero => simp [setAdjRow]
    | succ n =>
      have hn : n < ts.length := by simpa using Nat.lt_of_succ_lt_succ h
      have := ih (j0 + 1) n hn
      have harith : j0 + 1 + n = j0 + (n + 1) := by omega
      rw [harith] at this
      simpa [setAdjRow] using this

theorem setAdjRows_getD (g : Grid) :
    ∀ (rs : Grid) (i0 k : Nat), k < rs.length →
      (setAdjRows g rs i0).getD k [] = setAdjRow g (i0 + k) (rs.getD k []) 0 := by
  intro rs
  induction rs with
  | nil => intro i0 k h; simp at h
  | cons r rest ih =>
    intro i0 k h
    cases k with
    | zero => simp [setAdjRows]
    | succ n =>
      have hn : n < rest.length := by simpa using Nat.lt_of_succ_lt_succ h
      have := ih (i0 + 1) n hn
      have harith : i0 + 1 + n = i0 + (n + 1) := by omega
      rw [harith] at this
      simpa [setAdjRows] using this

theorem computeAdj_row_length (g : Grid) (i : Nat) :
    ((computeAdjBombs g).getD i []).length = (g.getD i []).length := by
  by_cases h : i < g.length
  · rw [show computeAdjBombs g = setAdjRows g g 0 from rfl, setAdjRows_getD g g 0 i h,
      setAdjRow_length]
  · have h1 : g.length ≤ i := Nat.le_of_not_lt h
    have h2 : (computeAdjBombs g).length ≤ i := by rw [computeAdjBombs_length]; exact h1
    rw [getD_ge _ _ _ h1, getD_ge _ _ _ h2]

theorem tileAt_computeAdj (g : Grid) (i j : Nat) (hi : i < g.length)
    (hj : j < (g.getD i []).length) :
    tileAt (computeAdjBombs g) i j
      = { tileAt g i j with adj_bombs := adjBombs g i j } := by
  unfold tileAt
  rw [show computeAdjBombs g = setAdjRows g g 0 from rfl, setAdjRows_getD g g 0 i hi,
    setAdjRow_getD g (0 + i) (g.getD i []) 0 j hj]
  simp

theorem has_bomb_computeAdj (g : Grid) (i j : Nat) :
    (tileAt (computeAdjBombs g) i j).has_bomb = (tileAt g i j).has_bomb := by
  by_cases hi : i < g.length
  · by_cases hj : j < (g.getD i []).length
    · rw [tileAt_computeAdj g i j hi hj]
    · have h1 : (g.getD i []).length ≤ j := Nat.le_of_not_lt hj
      have h2 : ((computeAdjBombs g).getD i []).length ≤ j := by
        rw [computeAdj_row_length]; exact h1
      unfold tileAt
      rw [getD_ge _ _ _ h1, getD_ge _ _ _ h2]
  · have h1 : g.length ≤ i := Nat.le_of_not_lt hi
    have h2 : (computeAdjBombs g).length ≤ i := by rw [computeAdjBombs_length]; exact h1
    unfold tileAt
    rw [getD_ge _ _ _ h1, getD_ge _ _ _ h2]

theorem bombAt_computeAdj (g : Grid) (x y : Int) :
    bombAt (computeAdjBombs g) x y = bombAt g x y := by
  simp only [bombAt, computeAdjBombs_length, headD_eq_getD, computeAdj_row_length,
    has_bomb_computeAdj]

theorem specAdjBombs_computeAdj (g : Grid) (i j : Nat) :
    specAdjBombs (computeAdjBombs g) i j = specAdjBombs g i j := by
  rw [specAdjBombs_eq, specAdjBombs_eq]
  simp only [bombAt_computeAdj]

theorem setAdjRow_countP (g : Grid) (i : Nat) :
    ∀ (r : List Tile) (j : Nat),
      (setAdjRow g i r j).countP (fun t => t.has_bomb)
        = r.countP (fun t => t.has_bomb) := by
  intro r
  induction r with
  | nil => intro j; rfl
  | cons t ts ih => intro j; simp [setAdjRow, List.countP_cons, ih]

theorem countBombs_setAdjRows (g : Grid) :
    ∀ (rs : Grid) (i : Nat),
      ((setAdjRows g rs i).map (fun r => r.countP (fun t => t.has_bomb))).sum
        = (rs.map (fun r => r.countP (fun t => t.has_bomb))).sum := by
  intro rs
  induction rs with
  | nil => intro i; rfl
  | cons r rest ih => intro i; simp [setAdjRows, setAdjRow_countP, ih]

theorem countBombs_computeAdj (g : Grid) :
    countBombs (computeAdjBombs g) = countBombs g :=
  countBombs_setAdjRows g g 0

theorem setAdjRow_adj_le (g : Grid) (i : Nat) :
    ∀ (r : List Tile) (j : Nat), ∀ t ∈ setAdjRow g i r j, t.adj_bombs ≤ 9 := by
  intro r
  induction r with
  | nil => intro j t ht; simp [setAdjRow] at ht
  | cons a as ih =>
    intro j t ht
    simp only [setAdjRow, List.mem_cons] at ht
    rcases ht with h | h
    · subst h; exact adjBombs_le_nine g i j
    · exact ih (j + 1) t h

theorem computeAdj_adj_le (g : Grid) :
    ∀ row ∈ computeAdjBombs g, ∀ t ∈ row, t.adj_bombs ≤ 9 := by
  have main : ∀ (rs : Grid) (i : Nat), ∀ row ∈ setAdjRows g rs i, ∀ t ∈ row,
      t.adj_bombs ≤ 9 := by
    intro rs
    induction rs with
    | nil => intro i row hrow; simp [setAdjRows] at hrow
    | cons r rest ih =>
      intro i row hrow
      simp only [setAdjRows, List.mem_cons] at hrow
      rcases hrow with h | h
      · subst h; exact setAdjRow_adj_le g i r 0
      · exact ih (i + 1) row h
  exact main g 0

theorem setAdjRows_row_length (g : Grid) (W : Nat) :
    ∀ (rs : Grid) (i : Nat), (∀ r ∈ rs, r.length = W) →
      ∀ row ∈ setAdjRows g rs i, row.length = W := by
  intro rs
  induction rs with
  | nil => intro i _ row hrow; simp [setAdjRows] at hrow
  | cons r rest ih =>
    intro i hall row hrow
    simp only [setAdjRows, List.mem_cons] at hrow
    rcases hrow with h | h
    · subst h; rw [setAdjRow_length]; exact hall r (by simp)
    · exact ih (i + 1) (fun r' hr' => hall r' (by simp [hr'])) row h

/-! ### The character loop of parse_grid -/

theorem parseRowAcc_ok (l : List Char) :
    ∀ (row : List Tile) (rb : Nat), parseRowAcc l = Except.ok (row, rb) →
      (∀ c ∈ l, c = 'x' ∨ c = '.') ∧ row = rowOf l ∧ rb = countX l := by
  induction l with
  | nil =>
    intro row rb h
    simp only [parseRowAcc, Except.ok.injEq, Prod.mk.injEq] at h
    obtain ⟨h1, h2⟩ := h
    exact ⟨by simp, by simp [rowOf, h1.symm], by simp [countX, h2.symm]⟩
  | cons c cs ih =>
    intro row rb h
    simp only [parseRowAcc] at h
    by_cases hc : c = 'x'
    · rw [if_pos hc] at h
      cases hrec : parseRowAcc cs with
      | error e => rw [hrec] at h; simp at h
      | ok p =>
        obtain ⟨ts, nb⟩ := p
        rw [hrec] at h
        simp only [Except.ok.injEq, Prod.mk.injEq] at h
        obtain ⟨hrow, hrb⟩ := h
        obtain ⟨hvalid, hts, hnb⟩ := ih ts nb hrec
        refine ⟨?_, ?_, ?_⟩
        · intro c' hc'
          rcases List.mem_cons.mp hc' with h | h
          · subst h; exact Or.inl hc
          · exact hvalid c' h
        · rw [← hrow, hts, rowOf, hc]
          simp [rowOf]
        · rw [← hrb, hnb, countX, countX, hc]
          simp [List.countP_cons]
    · rw [if_neg hc] at h
      by_cases hd : c = '.'
      · rw [if_pos hd] at h
        cases hrec : parseRowAcc cs with
        | error e => rw [hrec] at h; simp at h
        | ok p =>
          obtain ⟨ts, nb⟩ := p
          rw [hrec] at h
          simp only [Except.ok.injEq, Prod.mk.injEq] at h
          obtain ⟨hrow, hrb⟩ := h
          obtain ⟨hvalid, hts, hnb⟩ := ih ts nb hrec
          refine ⟨?_, ?_, ?_⟩
          · intro c' hc'
            rcases List.mem_cons.mp hc' with h | h
            · subst h; exact Or.inr hd
            · exact hvalid c' h
          · rw [← hrow, hts, rowOf, hd]
            simp [rowOf]
          · rw [← hrb, hnb, countX, countX, hd]
            simp [List.countP_cons]
      · rw [if_neg hd] at h
        simp at h

theorem parseRowAcc_ok_of_valid (l : List Char) :
    (∀ c ∈ l, c = 'x' ∨ c = '.') →
      parseRowAcc l = Except.ok (rowOf l, countX l) := by
  induction l with
  | nil => intro _; simp [parseRowAcc, rowOf, countX]
  | cons c cs ih =>
    intro hvalid
    have hcs : ∀ c' ∈ cs, c' = 'x' ∨ c' = '.' := fun c' h => hvalid c' (by simp [h])
    rcases hvalid c (by simp) with hc | hc
    · subst hc
      simp only [parseRowAcc, if_pos rfl, ih hcs]
      simp [rowOf, countX, List.countP_cons]
    · subst hc
      have hne : ('.' : Char) ≠ 'x' := by decide
      simp only [parseRowAcc, if_neg hne, if_pos rfl, ih hcs]
      simp [rowOf, countX, List.countP_cons]

theorem parseRowAcc_error (l : List Char) :
    ∀ (e : ParseError), parseRowAcc l = Except.error e →
      ∃ c ∈ l, ¬(c = 'x' ∨ c = '.') ∧ e = ParseError.invalidChar c := by
  induction l with
  | nil => intro e h; simp [parseRowAcc] at h
  | cons c cs ih =>
    intro e h
    simp only [parseRowAcc] at h
    by_cases hc : c = 'x'
    · rw [if_pos hc] at h
      cases hrec : parseRowAcc cs with
      | error e2 =>
        rw [hrec] at h
        simp only [Except.error.injEq] at h
        obtain ⟨c', hmem, hbad, he⟩ := ih e2 hrec
        exact ⟨c', by simp [hmem], hbad, by rw [← h, he]⟩
      | ok p => obtain ⟨ts, nb⟩ := p; rw [hrec] at h; simp at h
    · rw [if_neg hc] at h
      by_cases hd : c = '.'
      · rw [if_pos hd] at h
        cases hrec : parseRowAcc cs with
        | error e2 =>
          rw [hrec] at h
          simp only [Except.error.injEq] at h
          obtain ⟨c', hmem, hbad, he⟩ := ih e2 hrec
          exact ⟨c', by simp [hmem], hbad, by rw [← h, he]⟩
        | ok p => obtain ⟨ts, nb⟩ := p; rw [hrec] at h; simp at h
      · rw [if_neg hd] at h
        simp only [Except.error.injEq] at h
        exact ⟨c, by simp, by simp [hc, hd], h.symm⟩

theorem rowOf_length (l : List Char) : (rowOf l).length = l.length := by
  simp [rowOf]

theorem rowOf_countP (l : List Char) :
    (rowOf l).countP (fun t => t.has_bomb) = countX l := by
  simp only [rowOf, countX, List.countP_map]
  rfl

/-! ### The line loop of parse_grid -/

theorem headD_append {α : Type} (l : List α) (x d : α) (h : l ≠ []) :
    (l ++ [x]).headD d = l.headD d := by
  cases l with
  | nil => exact absurd rfl h
  | cons a as => rfl

theorem parseLines_ok (ls : List (List Char)) :
    ∀ (grid : Grid) (nb : Nat) (G : Grid) (B : Nat), grid ≠ [] →
      parseLines ls grid nb = Except.ok (G, B) →
      (∀ l ∈ ls, (∀ c ∈ l, c = 'x' ∨ c = '.') ∧ l.length = (grid.headD []).length) ∧
      G = grid ++ ls.map rowOf ∧ B = nb + (ls.map countX).sum := by
  induction ls with
  | nil =>
    intro grid nb G B _ h
    simp only [parseLines, Except.ok.injEq, Prod.mk.injEq] at h
    obtain ⟨hG, hB⟩ := h
    exact ⟨by simp, by simp [← hG], by simp [← hB]⟩
  | cons l ls ih =>
    intro grid nb G B hne h
    simp only [parseLines] at h
    cases hrow : parseRowAcc l with
    | error e => rw [hrow] at h; simp at h
    | ok p =>
      obtain ⟨row, rb⟩ := p
      rw [hrow] at h
      dsimp only at h
      obtain ⟨hvalid, hrowe, hrb⟩ := parseRowAcc_ok l row rb hrow
      by_cases hlen : (grid.headD []).length = row.length
      · rw [if_neg (fun hc => hc.2 hlen)] at h
        obtain ⟨hall, hG, hB⟩ := ih (grid ++ [row]) (nb + rb) G B (by simp) h
        rw [headD_append _ _ _ hne] at hall
        have hrl : row.length = l.length := by rw [hrowe, rowOf_length]
        refine ⟨?_, ?_, ?_⟩
        · intro l' hl'
          rcases List.mem_cons.mp hl' with h' | h'
          · subst h'
            exact ⟨hvalid, by rw [← hrl, hlen]⟩
          · exact hall l' h'
        · rw [hG, hrowe]
          simp
        · rw [hB, hrb]
          simp only [List.map_cons, List.sum_cons]
          omega
      · have hlen0 : grid.length > 0 := List.length_pos.mpr hne
        rw [if_pos ⟨hlen0, hlen⟩] at h
        simp at h

theorem parseLines_ok_of (ls : List (List Char)) :
    ∀ (grid : Grid) (nb : Nat), grid ≠ [] →
      (∀ l ∈ ls, (∀ c ∈ l, c = 'x' ∨ c = '.') ∧ l.length = (grid.headD []).length) →
      parseLines ls grid nb
        = Except.ok (grid ++ ls.map rowOf, nb + (ls.map countX).sum) := by
  induction ls with
  | nil => intro grid nb _ _; simp [parseLines]
  | cons l ls ih =>
    intro grid nb hne hall
    obtain ⟨hvalid, hlen⟩ := hall l (by simp)
    simp only [parseLines, parseRowAcc_ok_of_valid l hvalid]
    rw [if_neg (fun hc => hc.2 (by rw [rowOf_length]; exact hlen.symm))]
    rw [ih (grid ++ [rowOf l]) (nb + countX l) (by simp)
      (fun l' hl' => by
        obtain ⟨hv, hlen'⟩ := hall l' (by simp [hl'])
        exact ⟨hv, by rw [headD_append _ _ _ hne]; exact hlen'⟩)]
    simp only [List.map_cons, List.sum_cons, List.append_assoc, List.singleton_append,
      Except.ok.injEq, Prod.mk.injEq]
    exact ⟨trivial, by omega⟩

theorem parseLines_error (ls : List (List Char)) :
    ∀ (grid : Grid) (nb : Nat) (e : ParseError), grid ≠ [] →
      parseLines ls grid nb = Except.error e →
      (∃ c, (∃ l ∈ ls, c ∈ l) ∧ ¬(c = 'x' ∨ c = '.') ∧ e = ParseError.invalidChar c) ∨
      (∃ k, k < ls.length ∧ (grid.headD []).length ≠ (ls.getD k []).length ∧
        e = ParseError.jaggedRow (grid.headD []).length (grid.length + k)
              ((ls.getD k []).length)) := by
  induction ls with
  | nil => intro grid nb e _ h; simp [parseLines] at h
  | cons l ls ih =>
    intro grid nb e hne h
    simp only [parseLines] at h
    cases hrow : parseRowAcc l with
    | error e2 =>
      rw [hrow] at h
      dsimp only at h
      simp only [Except.error.injEq] at h
      obtain ⟨c, hmem, hbad, he⟩ := parseRowAcc_error l e2 hrow
      exact Or.inl ⟨c, ⟨l, by simp, hmem⟩, hbad, by rw [← h]; exact he⟩
    | ok p =>
      obtain ⟨row, rb⟩ := p
      rw [hrow] at h
      dsimp only at h
      obtain ⟨hvalid, hrowe, hrb⟩ := parseRowAcc_ok l row rb hrow
      have hrl : row.length = l.length := by rw [hrowe, rowOf_length]
      by_cases hlen : (grid.headD []).length = row.length
      · rw [if_neg (fun hc => hc.2 hlen)] at h
        rcases ih (grid ++ [row]) (nb + rb) e (by simp) h with
          ⟨c, ⟨l', hl', hcl⟩, hbad, he⟩ | ⟨k, hk, hnel, he⟩
        · exact Or.inl ⟨c, ⟨l', by simp [hl'], hcl⟩, hbad, he⟩
        · rw [headD_append _ _ _ hne] at hnel he
          refine Or.inr ⟨k + 1, by simpa using Nat.succ_lt_succ hk, ?_, ?_⟩
          · simpa using hnel
          · have harith : (grid ++ [row]).length + k = grid.length + (k + 1) := by
              simp
              omega
            rw [harith] at he
            simpa using he
      · have hlen0 : grid.length > 0 := List.length_pos.mpr hne
        rw [if_pos ⟨hlen0, hlen⟩] at h
        simp only [Except.error.injEq] at h
        refine Or.inr ⟨0, by simp, ?_, ?_⟩
        · simpa [← hrl] using hlen
        · rw [← h]
          simp [hrl]

/-! ### parse_grid: success and failure characterized -/

theorem parse_grid_ok (lines : List (List Char)) (r : ParseResult)
    (h : parse_grid lines = Except.ok r) :
    lines ≠ [] ∧ (lines.headD []).length ≠ 0 ∧
    (∀ l ∈ lines, (∀ c ∈ l, c = 'x' ∨ c = '.') ∧ l.length = (lines.headD []).length) ∧
    r.grid = computeAdjBombs (lines.map rowOf) ∧
    r.num_bombs = (lines.map countX).sum := by
  cases lines with
  | nil => simp [parse_grid, parseLines] at h
  | cons l ls =>
    unfold parse_grid at h
    simp only [parseLines] at h
    cases hrow : parseRowAcc l with
    | error e => rw [hrow] at h; simp at h
    | ok p =>
      obtain ⟨row, rb⟩ := p
      rw [hrow] at h
      dsimp only at h
      rw [if_neg (by simp)] at h
      simp only [List.nil_append] at h
      obtain ⟨hvalid, hrowe, hrb⟩ := parseRowAcc_ok l row rb hrow
      have hrl : row.length = l.length := by rw [hrowe, rowOf_length]
      cases hres : parseLines ls [row] (0 + rb) with
      | error e => rw [hres] at h; simp at h
      | ok q =>
        obtain ⟨G, B⟩ := q
        rw [hres] at h
        dsimp only at h
        obtain ⟨hall, hG, hB⟩ := parseLines_ok ls [row] (0 + rb) G B (by simp) hres
        simp only [List.headD_cons] at hall
        by_cases hempty : G.length = 0 ∨ (G.headD []).length = 0
        · rw [if_pos hempty] at h; simp at h
        · rw [if_neg hempty] at h
          simp only [Except.ok.injEq] at h
          push_neg at hempty
          obtain ⟨_, hGhead⟩ := hempty
          have hGform : G = (l :: ls).map rowOf := by
            rw [hG, hrowe]; simp
          have hheadG : (G.headD []).length = l.length := by
            rw [hGform]; simp [rowOf_length]
          refine ⟨by simp, ?_, ?_, ?_, ?_⟩
          · rw [hheadG] at hGhead
            simpa using hGhead
          · intro l' hl'
            rcases List.mem_cons.mp hl' with h' | h'
            · subst h'; exact ⟨hvalid, by simp⟩
            · obtain ⟨hv, hlen'⟩ := hall l' h'
              exact ⟨hv, by simpa [hrl] using hlen'⟩
          · rw [← h]; dsimp only
            rw [hGform]
          · rw [← h]; dsimp only
            rw [hB, hrb]
            simp only [List.map_cons, List.sum_cons]
            omega

theorem parse_grid_ok_of (lines : List (List Char)) (hne : lines ≠ [])
    (hW : (lines.headD []).length ≠ 0)
    (hall : ∀ l ∈ lines, (∀ c ∈ l, c = 'x' ∨ c = '.') ∧
      l.length = (lines.headD []).length) :
    parse_grid lines
      = Except.ok { grid := computeAdjBombs (lines.map rowOf),
                    num_bombs := (lines.map countX).sum } := by
  cases lines with
  | nil => exact absurd rfl hne
  | cons l ls =>
    obtain ⟨hvalid, _⟩ := hall l (by simp)
    unfold parse_grid
    simp only [parseLines, parseRowAcc_ok_of_valid l hvalid]
    rw [if_neg (by simp)]
    simp only [List.nil_append]
    rw [parseLines_ok_of ls [rowOf l] (0 + countX l) (by simp)
      (fun l' hl' => by
        obtain ⟨hv, hlen'⟩ := hall l' (by simp [hl'])
        exact ⟨hv, by simpa [rowOf_length] using hlen'⟩)]
    dsimp only
    rw [if_neg (by
      intro hc
      rcases hc with hc | hc
      · simp at hc
      · simp only [List.singleton_append, List.headD_cons, rowOf_length] at hc
        simp only [List.headD_cons] at hW
        exact hW hc)]
    simp only [List.singleton_append, List.map_cons, List.sum_cons, Except.ok.injEq,
      ParseResult.mk.injEq]
    exact ⟨trivial, by omega⟩

theorem parse_grid_error (lines : List (List Char)) (e : ParseError)
    (h : parse_grid lines = Except.error e) :
    (∃ c, ¬(c = 'x' ∨ c = '.') ∧ (∃ l ∈ lines, c ∈ l) ∧ e = ParseError.invalidChar c) ∨
    (∃ k, 0 < k ∧ k < lines.length ∧
      (lines.headD []).length ≠ (lines.getD k []).length ∧
      e = ParseError.jaggedRow (lines.headD []).length k ((lines.getD k []).length)) ∨
    (e = ParseError.emptyGrid ∧ (lines = [] ∨ (lines.headD []).length = 0)) := by
  cases lines with
  | nil =>
    simp only [parse_grid, parseLines] at h
    rw [if_pos (by simp)] at h
    simp only [Except.error.injEq] at h
    exact Or.inr (Or.inr ⟨h.symm, Or.inl rfl⟩)
  | cons l ls =>
    unfold parse_grid at h
    simp only [parseLines] at h
    cases hrow : parseRowAcc l with
    | error e2 =>
      rw [hrow] at h
      dsimp only at h
      simp only [Except.error.injEq] at h
      obtain ⟨c, hmem, hbad, he⟩ := parseRowAcc_error l e2 hrow
      exact Or.inl ⟨c, hbad, ⟨l, by simp, hmem⟩, by rw [← h]; exact he⟩
    | ok p =>
      obtain ⟨row, rb⟩ := p
      rw [hrow] at h
      dsimp only at h
      rw [if_neg (by simp)] at h
      simp only [List.nil_append] at h
      obtain ⟨hvalid, hrowe, hrb⟩ := parseRowAcc_ok l row rb hrow
      have hrl : row.length = l.length := by rw [hrowe, rowOf_length]
      cases hres : parseLines ls [row] (0 + rb) with
      | error e2 =>
        rw [hres] at h
        dsimp only at h
        simp only [Except.error.injEq] at h
        rcases parseLines_error ls [row] (0 + rb) e2 (by simp) hres with
          ⟨c, ⟨l', hl', hcl⟩, hbad, he⟩ | ⟨k, hk, hnel, he⟩
        · exact Or.inl ⟨c, hbad, ⟨l', by simp [hl'], hcl⟩, by rw [← h]; exact he⟩
        · simp only [List.headD_cons, List.length_singleton, hrl] at hnel he
          refine Or.inr (Or.inl ⟨k + 1, by omega, by simpa using Nat.succ_lt_succ hk,
            ?_, ?_⟩)
          · simpa using hnel
          · rw [← h]
            have harith : 1 + k = k + 1 := by omega
            rw [harith] at he
            simpa using he
      | ok q =>
        obtain ⟨G, B⟩ := q
        rw [hres] at h
        dsimp only at h
        obtain ⟨hall, hG, hB⟩ := parseLines_ok ls [row] (0 + rb) G B (by simp) hres
        by_cases hempty : G.length = 0 ∨ (G.headD []).length = 0
        · rw [if_pos hempty] at h
          simp only [Except.error.injEq] at h
          have hGform : G = (l :: ls).map rowOf := by
            rw [hG, hrowe]; simp
          have hheadG : (G.headD []).length = l.length := by
            rw [hGform]; simp [rowOf_length]
          rcases hempty with hlen | hhead
          · exfalso
            rw [hGform] at hlen
            simp at hlen
          · refine Or.inr (Or.inr ⟨h.symm, Or.inr ?_⟩)
            rw [hheadG] at hhead
            simpa using hhead
        · rw [if_neg hempty] at h
          simp at h

/-! ### Reduction of Game.reveal on an in-bounds point -/

theorem reveal_eq (g : Game) (p : Point) (row : List Tile) (tile : Tile)
    (hrow : g.grid.get? p.row = some row) (htile : row.get? p.col = some tile) :
    g.reveal p = some
      { grid := g.grid.set p.row (row.set p.col
          (if tile.visibility = Visibility.Revealed then tile
           else { tile with visibility := Visibility.Revealed })),
        num_bombs := g.num_bombs,
        num_revealed := if tile.visibility = Visibility.Revealed then g.num_revealed
                        else g.num_revealed + 1,
        game_over :=
          if tile.has_bomb then some GameOutcome.Loss
          else if (if tile.visibility = Visibility.Revealed then g.num_revealed
                   else g.num_revealed + 1) = g.numTiles - g.num_bombs then
            some GameOutcome.Win
          else g.game_over } := by
  have h2 : (if tile.visibility = Visibility.Revealed then tile
             else { tile with visibility := Visibility.Revealed }).has_bomb
            = tile.has_bomb := by
    split <;> rfl
  simp only [Game.reveal, hrow, htile, h2]

theorem reveal_isSome_mono (g : Game) (p : Point) (g2 : Game)
    (h : g.reveal p = some g2) (hs : g.game_over.isSome = true) :
    g2.game_over.isSome = true := by
  unfold Game.reveal at h
  cases hr : g.grid.get? p.row with
  | none => rw [hr] at h; simp at h
  | some row =>
    rw [hr] at h
    dsimp only at h
    cases ht : row.get? p.col with
    | none => rw [ht] at h; simp at h
    | some tile =>
      rw [ht] at h
      dsimp only at h
      simp only [Option.some.injEq] at h
      subst h
      dsimp only
      repeat' split
      all_goals simp_all

/-! ### C1 -/

/-- C1: for an in-bounds reveal of a currently-Hidden tile, a bomb tile sets
the outcome to Loss regardless of the prior reveal count; otherwise, if the
incremented counter reaches total tiles minus total bombs, the outcome is
set to Win and not Loss; the call sets at most one of the two. -/
theorem reveal_sets_outcome (g : Game) (p : Point) (row : List Tile) (tile : Tile)
    (hrow : g.grid.get? p.row = some row) (htile : row.get? p.col = some tile)
    (hvis : tile.visibility = Visibility.Hidden) :
    (tile.has_bomb = true →
      (g.reveal p).map Game.game_over = some (some GameOutcome.Loss)) ∧
    (tile.has_bomb = false → g.num_revealed + 1 = g.numTiles - g.num_bombs →
      (g.reveal p).map Game.game_over = some (some GameOutcome.Win) ∧
      (g.reveal p).map Game.game_over ≠ some (some GameOutcome.Loss)) := by
  have hne : ¬ tile.visibility = Visibility.Revealed := by simp [hvis]
  rw [reveal_eq g p row tile hrow htile]
  refine ⟨?_, ?_⟩
  · intro hb
    simp [hb]
  · intro hb hc
    constructor
    · simp [hb, hne, hc]
    · simp [hb, hne, hc]

theorem reveal_sets_outcome_w :
    (demoGame.reveal ⟨0, 0⟩).map Game.game_over = some (some GameOutcome.Loss) :=
  (reveal_sets_outcome demoGame ⟨0, 0⟩
    [{ has_bomb := true, adj_bombs := 1, visibility := Visibility.Hidden },
     { has_bomb := false, adj_bombs := 1, visibility := Visibility.Hidden },
     { has_bomb := false, adj_bombs := 0, visibility := Visibility.Hidden }]
    { has_bomb := true, adj_bombs := 1, visibility := Visibility.Hidden }
    (by decide) (by decide) (by decide)).1 (by decide)

/-! ### C6 -/

/-- C6: an in-bounds reveal of a currently-Hidden tile changes exactly that
tile's visibility to Revealed and increments num_revealed by one; every
other tile, the target tile's bomb flag and adjacency count, the grid
dimensions and num_bombs are unchanged. -/
theorem reveal_frame_effect (g : Game) (p : Point) (row : List Tile) (tile : Tile)
    (hrow : g.grid.get? p.row = some row) (htile : row.get? p.col = some tile)
    (hvis : tile.visibility = Visibility.Hidden) :
    ((g.reveal p).map fun g2 => tileAt g2.grid p.row p.col)
      = some { tile with visibility := Visibility.Revealed } ∧
    (∀ r c : Nat, ¬(r = p.row ∧ c = p.col) →
      ((g.reveal p).map fun g2 => tileAt g2.grid r c) = some (tileAt g.grid r c)) ∧
    ((g.reveal p).map fun g2 => g2.grid.length) = some g.grid.length ∧
    (∀ i : Nat, ((g.reveal p).map fun g2 => (g2.grid.getD i []).length)
      = some (g.grid.getD i []).length) ∧
    (g.reveal p).map Game.num_revealed = some (g.num_revealed + 1) ∧
    (g.reveal p).map Game.num_bombs = some g.num_bombs := by
  have hne : ¬ tile.visibility = Visibility.Revealed := by simp [hvis]
  have hrlen : p.row < g.grid.length := length_of_get?_some _ _ _ hrow
  have hclen : p.col < row.length := length_of_get?_some _ _ _ htile
  have hrowD : g.grid.getD p.row [] = row := getD_of_get?_some _ _ _ _ hrow
  rw [reveal_eq g p row tile hrow htile]
  refine ⟨?_, ?_, ?_, ?_, ?_, ?_⟩
  · simp only [Option.map_some', Option.some.injEq, tileAt]
    rw [getD_set_self _ _ _ _ hrlen, getD_set_self _ _ _ _ hclen]
    simp [hne]
  · intro r c hrc
    simp only [Option.map_some', Option.some.injEq, tileAt]
    by_cases hr : r = p.row
    · subst hr
      have hc : c ≠ p.col := fun h => hrc ⟨rfl, h⟩
      rw [getD_set_self _ _ _ _ hrlen, getD_set_ne _ _ _ _ _ (fun h => hc h.symm), hrowD]
    · rw [getD_set_ne _ _ _ _ _ (fun h => hr h.symm)]
  · simp [List.length_set]
  · intro i
    simp only [Option.map_some', Option.some.injEq]
    by_cases hi : i = p.row
    · subst hi
      rw [getD_set_self _ _ _ _ hrlen, List.length_set, hrowD]
    · rw [getD_set_ne _ _ _ _ _ (fun h => hi h.symm)]
  · simp [hne]
  · simp

theorem reveal_frame_effect_w :
    ((demoGame.reveal ⟨0, 1⟩).map fun g2 => tileAt g2.grid 0 0)
      = some (tileAt demoGame.grid 0 0) ∧
    (demoGame.reveal ⟨0, 1⟩).map Game.num_revealed = some 1 :=
  ⟨(reveal_frame_effect demoGame ⟨0, 1⟩
      [{ has_bomb := true, adj_bombs := 1, visibility := Visibility.Hidden },
       { has_bomb := false, adj_bombs := 1, visibility := Visibility.Hidden },
       { has_bomb := false, adj_bombs := 0, visibility := Visibility.Hidden }]
      { has_bomb := false, adj_bombs := 1, visibility := Visibility.Hidden }
      (by decide) (by decide) (by decide)).2.1 0 0 (by decide),
   (reveal_frame_effect demoGame ⟨0, 1⟩
      [{ has_bomb := true, adj_bombs := 1, visibility := Visibility.Hidden },
       { has_bomb := false, adj_bombs := 1, visibility := Visibility.Hidden },
       { has_bomb := false, adj_bombs := 0, visibility := Visibility.Hidden }]
      { has_bomb := false, adj_bombs := 1, visibility := Visibility.Hidden }
      (by decide) (by decide) (by decide)).2.2.2.2.1⟩

/-! ### C10 -/

/-- C10: revealing a previously hidden bomb tile increments num_revealed by
one, exactly like a non-bomb reveal; only an already-Revealed tile leaves
the counter unchanged. -/
theorem reveal_counter_increment (g : Game) (p : Point) (tile : Tile)
    (h : g.get p = some tile) :
    (tile.visibility ≠ Visibility.Revealed →
      (g.reveal p).map Game.num_revealed = some (g.num_revealed + 1)) ∧
    (tile.visibility = Visibility.Revealed →
      (g.reveal p).map Game.num_revealed = some g.num_revealed) ∧
    (tile.has_bomb = true → tile.visibility = Visibility.Hidden →
      (g.reveal p).map Game.num_revealed = some (g.num_revealed + 1)) := by
  unfold Game.get at h
  cases hr : g.grid.get? p.row with
  | none => rw [hr] at h; simp at h
  | some row =>
    rw [hr] at h
    rw [reveal_eq g p row tile hr h]
    refine ⟨?_, ?_, ?_⟩
    · intro hne; simp [hne]
    · intro heq; simp [heq]
    · intro _ hvis
      have hne : ¬ tile.visibility = Visibility.Revealed := by simp [hvis]
      simp [hne]

theorem reveal_counter_increment_w :
    (demoGame.reveal ⟨0, 0⟩).map Game.num_revealed = some 1 :=
  (reveal_counter_increment demoGame ⟨0, 0⟩
    { has_bomb := true, adj_bombs := 1, visibility := Visibility.Hidden }
    (by decide)).2.2 (by decide) (by decide)

/-! ### C8 -/

/-- C8 counterexample: revealing an already-Revealed in-bounds tile is not a
fatal assertion failure; the second reveal of the same tile completes
(returns a game rather than the panic value none) and leaves num_revealed
unchanged at one. -/
theorem reveal_revealed_not_fatal_cx :
    (playOpt demoGame [⟨0, 1⟩, ⟨0, 1⟩]).isSome = true ∧
    (playOpt demoGame [⟨0, 1⟩, ⟨0, 1⟩]).map Game.num_revealed = some 1 := by
  decide

/-- C8 amended: revealing an out-of-bounds point is a fatal panic (modelled
by none), but revealing an already-Revealed in-bounds tile is silently
tolerated: the call completes and leaves num_revealed unchanged. -/
theorem reveal_contract_behavior (g : Game) (p : Point) :
    (g.get p = none → g.reveal p = none) ∧
    (∀ tile, g.get p = some tile → tile.visibility = Visibility.Revealed →
      (g.reveal p).isSome = true ∧
      (g.reveal p).map Game.num_revealed = some g.num_revealed) := by
  constructor
  · intro h
    cases hr : g.grid.get? p.row with
    | none =>
      unfold Game.reveal
      rw [hr]
    | some row =>
      unfold Game.get at h
      rw [hr] at h
      dsimp only at h
      unfold Game.reveal
      rw [hr]
      dsimp only
      rw [h]
  · intro tile h hvis
    unfold Game.get at h
    cases hr : g.grid.get? p.row with
    | none => rw [hr] at h; simp at h
    | some row =>
      rw [hr] at h
      rw [reveal_eq g p row tile hr h]
      simp [hvis]

theorem reveal_contract_behavior_w :
    (demoGame.reveal ⟨5, 5⟩ = none) ∧
    ((demoOverStep.reveal ⟨0, 1⟩).isSome = true ∧
      (demoOverStep.reveal ⟨0, 1⟩).map Game.num_revealed = some 1) :=
  ⟨(reveal_contract_behavior demoGame ⟨5, 5⟩).1 (by decide),
   (reveal_contract_behavior demoOverStep ⟨0, 1⟩).2
     { has_bomb := false, adj_bombs := 1, visibility := Visibility.Revealed }
     (by decide) (by decide)⟩

/-! ### C7 -/

/-- C7 counterexample: from the fresh game parsed from the row x.., the
reveal sequence (0,1), (0,2) sets the outcome to Win, and the further
reveal (0,0) then changes it to Loss, so along an unrestricted sequence of
reveal operations the outcome is not irreversible. -/
theorem outcome_flip_cx :
    demoGame.game_over = none ∧
    (playOpt demoGame [⟨0, 1⟩, ⟨0, 2⟩]).map Game.game_over
      = some (some GameOutcome.Win) ∧
    (playOpt demoGame [⟨0, 1⟩, ⟨0, 2⟩, ⟨0, 0⟩]).map Game.game_over
      = some (some GameOutcome.Loss) := by
  decide

/-- C7 amended: along every sequence of reveals the outcome, once set, is
never cleared back to None; and under the documented driver protocol,
which performs no reveal once the outcome is set, the outcome never
changes at all once set (Win stays Win, Loss stays Loss). -/
theorem outcome_never_cleared (ps : List Point) (g gFin : Game) :
    (playOpt g ps = some gFin → g.game_over.isSome = true →
      gFin.game_over.isSome = true) ∧
    (playDriver g ps = some gFin → ∀ o, g.game_over = some o →
      gFin.game_over = some o) := by
  induction ps generalizing g with
  | nil =>
    constructor
    · intro h hs
      simp only [playOpt, Option.some.injEq] at h
      subst h; exact hs
    · intro h o ho
      simp only [playDriver, Option.some.injEq] at h
      subst h; exact ho
  | cons p ps ih =>
    constructor
    · intro h hs
      simp only [playOpt] at h
      cases hr : g.reveal p with
      | none => rw [hr] at h; simp at h
      | some g2 =>
        rw [hr] at h
        exact (ih g2).1 h (reveal_isSome_mono g p g2 hr hs)
    · intro h o ho
      simp only [playDriver] at h
      rw [ho] at h
      simp only [Option.isSome_some, if_true, Option.some.injEq] at h
      subst h; exact ho

/-! ### C3 -/

theorem getD_map_length {α β : Type} (f : α → β) :
    ∀ (l : List (List α)) (i : Nat),
      ((l.map (fun row => row.map f)).getD i []).length = (l.getD i []).length := by
  intro l
  induction l with
  | nil => intro i; rfl
  | cons r rs ih =>
    intro i
    cases i with
    | zero => simp
    | succ n => simpa using ih n

/-- C3 counterexample: on the fresh game parsed from the single-bomb input x,
reveal-all leaves num_revealed at 0 while the total tile count is 1, so
reveal-all does not set num_revealed to the tile count. -/
theorem revealAll_num_revealed_cx :
    (Game.fromInput [['x']]).toOption.map
      (fun g => (g.revealAll.num_revealed, g.revealAll.numTiles)) = some (0, 1) := by
  decide

/-- C3 amended: reveal-all sets every tile's visibility to Revealed
regardless of the prior outcome and of which tiles were previously
revealed, and leaves num_revealed, num_bombs, the outcome and the grid
dimensions unchanged; in particular num_revealed is not updated to the
tile count. -/
theorem revealAll_reveals_everything (g : Game) :
    (∀ row ∈ g.revealAll.grid, ∀ t ∈ row, t.visibility = Visibility.Revealed) ∧
    g.revealAll.num_revealed = g.num_revealed ∧
    g.revealAll.num_bombs = g.num_bombs ∧
    g.revealAll.game_over = g.game_over ∧
    g.revealAll.grid.length = g.grid.length ∧
    (∀ i : Nat, (g.revealAll.grid.getD i []).length = (g.grid.getD i []).length) := by
  refine ⟨?_, rfl, rfl, rfl, by simp [Game.revealAll], ?_⟩
  · intro row hrow t ht
    simp only [Game.revealAll, List.mem_map] at hrow
    obtain ⟨row0, _, rfl⟩ := hrow
    simp only [List.mem_map] at ht
    obtain ⟨t0, _, rfl⟩ := ht
    rfl
  · intro i
    exact getD_map_length _ g.grid i

theorem revealAll_reveals_everything_w :
    ({ has_bomb := true, adj_bombs := 1, visibility := Visibility.Revealed } : Tile).visibility
      = Visibility.Revealed ∧
    demoGame.revealAll.num_revealed = demoGame.num_revealed :=
  ⟨(revealAll_reveals_everything demoGame).1
      [{ has_bomb := true, adj_bombs := 1, visibility := Visibility.Revealed },
       { has_bomb := false, adj_bombs := 1, visibility := Visibility.Revealed },
       { has_bomb := false, adj_bombs := 0, visibility := Visibility.Revealed }]
      (by decide)
      { has_bomb := true, adj_bombs := 1, visibility := Visibility.Revealed }
      (by decide),
   (revealAll_reveals_everything demoGame).2.1⟩

theorem outcome_never_cleared_w :
    demoOverStep.game_over.isSome = true ∧
    demoOver.game_over = some GameOutcome.Loss :=
  ⟨(outcome_never_cleared [⟨0, 1⟩] demoOver demoOverStep).1 (by decide) (by decide),
   (outcome_never_cleared [⟨0, 1⟩] demoOver demoOver).2 (by decide)
     GameOutcome.Loss (by decide)⟩

/-! ### Shared consequences of a successful parse -/

theorem getD_mem_of_lt {α : Type} :
    ∀ (l : List α) (i : Nat) (d : α), i < l.length → l.getD i d ∈ l := by
  intro l
  induction l with
  | nil => intro i d h; simp at h
  | cons a as ih =>
    intro i d h
    cases i with
    | zero => simp
    | succ n =>
      have := ih n d (by simpa using Nat.lt_of_succ_lt_succ h)
      simpa using Or.inr this

theorem sum_lengths_of_rect {α : Type} :
    ∀ (g : List (List α)) (W : Nat), (∀ row ∈ g, row.length = W) →
      (g.map List.length).sum = g.length * W := by
  intro g
  induction g with
  | nil => intro W _; simp
  | cons r rs ih =>
    intro W h
    have hr : r.length = W := h r (by simp)
    have := ih W (fun r' h' => h r' (by simp [h']))
    simp only [List.map_cons, List.sum_cons, List.length_cons, this, hr]
    ring

theorem countBombs_rowOf (lines : List (List Char)) :
    countBombs (lines.map rowOf) = (lines.map countX).sum := by
  induction lines with
  | nil => rfl
  | cons l ls ih =>
    simp only [List.map_cons, countBombs, List.sum_cons] at ih ⊢
    rw [rowOf_countP]
    omega

theorem parse_grid_rows (lines : List (List Char)) (r : ParseResult)
    (h : parse_grid lines = Except.ok r) :
    (∀ row ∈ r.grid, row.length = (lines.headD []).length) ∧
    r.grid.length = lines.length ∧
    (r.grid.headD []).length = (lines.headD []).length ∧
    r.grid ≠ [] := by
  obtain ⟨hne, _, hall, hgrid, _⟩ := parse_grid_ok lines r h
  have hGrows : ∀ row ∈ lines.map rowOf, row.length = (lines.headD []).length := by
    intro row hrow
    obtain ⟨l, hl, rfl⟩ := List.mem_map.mp hrow
    rw [rowOf_length]
    exact (hall l hl).2
  have hrows : ∀ row ∈ r.grid, row.length = (lines.headD []).length := by
    rw [hgrid]
    exact setAdjRows_row_length _ _ _ 0 hGrows
  have hlenG : r.grid.length = lines.length := by
    rw [hgrid, computeAdjBombs_length, List.length_map]
  have hne2 : r.grid ≠ [] := by
    intro hnil
    rw [hnil] at hlenG
    exact hne (List.eq_nil_of_length_eq_zero hlenG.symm)
  have hheadmem : r.grid.headD [] ∈ r.grid := by
    cases hg : r.grid with
    | nil => exact absurd hg hne2
    | cons a as => simp
  exact ⟨hrows, hlenG, hrows _ hheadmem, hne2⟩

/-! ### C4 -/

/-- C4: a successful parse yields a non-empty rectangular grid whose tile
count is height times width, and the returned bomb count equals the number
of tiles whose bomb flag is set. -/
theorem parse_grid_shape_and_counts (lines : List (List Char)) (r : ParseResult)
    (h : parse_grid lines = Except.ok r) :
    1 ≤ r.grid.length ∧ 1 ≤ (r.grid.headD []).length ∧
    (∀ row ∈ r.grid, row.length = (r.grid.headD []).length) ∧
    (r.grid.map List.length).sum = r.grid.length * (r.grid.headD []).length ∧
    r.num_bombs = countBombs r.grid := by
  obtain ⟨hne, hW, _, hgrid, hnb⟩ := parse_grid_ok lines r h
  obtain ⟨hrows, hlenG, hhead, hne2⟩ := parse_grid_rows lines r h
  refine ⟨?_, ?_, ?_, ?_, ?_⟩
  · have := List.length_pos.mpr hne2
    omega
  · rw [hhead]
    omega
  · intro row hrow
    rw [hhead]
    exact hrows row hrow
  · rw [sum_lengths_of_rect r.grid (r.grid.headD []).length
      (fun row hrow => by rw [hhead]; exact hrows row hrow)]
  · rw [hnb, hgrid, countBombs_computeAdj, countBombs_rowOf]

theorem parse_grid_shape_and_counts_w :
    demoParseDot.num_bombs = countBombs demoParseDot.grid ∧
    1 ≤ demoParseDot.grid.length :=
  ⟨(parse_grid_shape_and_counts [['.']] demoParseDot (by decide)).2.2.2.2,
   (parse_grid_shape_and_counts [['.']] demoParseDot (by decide)).1⟩

/-! ### C5 -/

/-- C5: the parser succeeds exactly when the input is a non-empty rectangle
of the two sentinel characters; each failure is one of the three errors,
reporting the offending character, the expected length with the offending
row index and its actual length, or the empty grid; the single error
channel is shared with Game construction, so no usable Game is produced on
failure. -/
theorem parse_grid_failure_taxonomy (lines : List (List Char)) :
    ((parse_grid lines).isOk = true ↔
      (lines ≠ [] ∧ (lines.headD []).length ≠ 0 ∧
        ∀ l ∈ lines, (∀ c ∈ l, c = 'x' ∨ c = '.') ∧
          l.length = (lines.headD []).length)) ∧
    (∀ e, parse_grid lines = Except.error e →
      ((∃ c, ¬(c = 'x' ∨ c = '.') ∧ (∃ l ∈ lines, c ∈ l) ∧
          e = ParseError.invalidChar c) ∨
       (∃ k, 0 < k ∧ k < lines.length ∧
         (lines.headD []).length ≠ (lines.getD k []).length ∧
         e = ParseError.jaggedRow (lines.headD []).length k ((lines.getD k []).length)) ∨
       (e = ParseError.emptyGrid ∧ (lines = [] ∨ (lines.headD []).length = 0)))) ∧
    ((Game.fromInput lines).isOk = (parse_grid lines).isOk) := by
  refine ⟨⟨?_, ?_⟩, parse_grid_error lines, ?_⟩
  · intro hok
    cases hp : parse_grid lines with
    | error e => rw [hp] at hok; simp [Except.isOk, Except.toBool] at hok
    | ok r =>
      obtain ⟨h1, h2, h3, _, _⟩ := parse_grid_ok lines r hp
      exact ⟨h1, h2, h3⟩
  · rintro ⟨h1, h2, h3⟩
    rw [parse_grid_ok_of lines h1 h2 h3]
    rfl
  · unfold Game.fromInput
    cases parse_grid lines <;> rfl

theorem parse_grid_failure_taxonomy_w :
    (∃ c, ¬(c = 'x' ∨ c = '.') ∧ (∃ l ∈ [['.', 'q']], c ∈ l) ∧
      ParseError.invalidChar 'q' = ParseError.invalidChar c) ∨
    (∃ k, 0 < k ∧ k < ([['.', 'q']] : List (List Char)).length ∧
      (([['.', 'q']] : List (List Char)).headD []).length
        ≠ (([['.', 'q']] : List (List Char)).getD k []).length ∧
      ParseError.invalidChar 'q'
        = ParseError.jaggedRow (([['.', 'q']] : List (List Char)).headD []).length k
            ((([['.', 'q']] : List (List Char)).getD k []).length)) ∨
    (ParseError.invalidChar 'q' = ParseError.emptyGrid ∧
      (([['.', 'q']] : List (List Char)) = [] ∨
        (([['.', 'q']] : List (List Char)).headD []).length = 0)) :=
  (parse_grid_failure_taxonomy [['.', 'q']]).2.1 (ParseError.invalidChar 'q') (by decide)

/-! ### C2 -/

/-- C2 counterexample: the adjacency count of the wired-in parser includes
the tile itself.  On the one-bomb input x the single tile gets adj_bombs 1
while its 8-neighborhood (excluding self) holds 0 bombs, and on a 3x3
all-bomb grid the center tile gets adj_bombs 9, outside 0..=8. -/
theorem adj_bombs_excludes_self_cx :
    ((parse_grid [['x']]).toOption.map
      (fun r => ((tileAt r.grid 0 0).adj_bombs, specAdjBombs r.grid 0 0)))
      = some (1, 0) ∧
    ((parse_grid [['x', 'x', 'x'], ['x', 'x', 'x'], ['x', 'x', 'x']]).toOption.map
      (fun r => (tileAt r.grid 1 1).adj_bombs)) = some 9 := by
  decide

/-- C2 amended: after a successful parse every in-bounds tile's adj_bombs
equals the number of bombs in the 3x3 block centered on the tile, clipped
to grid bounds, INCLUDING the tile itself — that is, the 8-neighborhood
count plus one when the tile is a bomb — and lies in 0..=9; for non-bomb
tiles it equals the 8-neighborhood count and lies in 0..=8. -/
theorem adj_bombs_neighborhood (lines : List (List Char)) (r : ParseResult)
    (h : parse_grid lines = Except.ok r) (i j : Nat)
    (hi : i < r.grid.length) (hj : j < (r.grid.headD []).length) :
    (tileAt r.grid i j).adj_bombs
      = specAdjBombs r.grid i j + (tileAt r.grid i j).has_bomb.toNat ∧
    (tileAt r.grid i j).adj_bombs ≤ 9 ∧
    ((tileAt r.grid i j).has_bomb = false →
      (tileAt r.grid i j).adj_bombs = specAdjBombs r.grid i j ∧
      (tileAt r.grid i j).adj_bombs ≤ 8) := by
  obtain ⟨hne, hW, hall, hgrid, _⟩ := parse_grid_ok lines r h
  obtain ⟨hrows, hlenG, hhead, hne2⟩ := parse_grid_rows lines r h
  have hGrows : ∀ row ∈ lines.map rowOf, row.length = (lines.headD []).length := by
    intro row hrow
    obtain ⟨l, hl, rfl⟩ := List.mem_map.mp hrow
    rw [rowOf_length]
    exact (hall l hl).2
  have hGlen : (lines.map rowOf).length = lines.length := List.length_map _ _
  have hiG : i < (lines.map rowOf).length := by
    rw [hGlen, ← hlenG]
    exact hi
  have hjW : j < (lines.headD []).length := by
    rw [← hhead]
    exact hj
  have hjG : j < ((lines.map rowOf).getD i []).length := by
    rw [hGrows _ (getD_mem_of_lt _ i [] hiG)]
    exact hjW
  have hGhead : ((lines.map rowOf).headD []).length = (lines.headD []).length := by
    have hmem : (lines.map rowOf).headD [] ∈ lines.map rowOf := by
      cases hg : lines.map rowOf with
      | nil => rw [hg] at hGlen; exact absurd (List.eq_nil_of_length_eq_zero hGlen.symm) hne
      | cons a as => simp
    exact hGrows _ hmem
  have htile : tileAt r.grid i j
      = { tileAt (lines.map rowOf) i j with
          adj_bombs := adjBombs (lines.map rowOf) i j } := by
    rw [hgrid]
    exact tileAt_computeAdj _ i j hiG hjG
  have hbomb : (tileAt r.grid i j).has_bomb
      = (tileAt (lines.map rowOf) i j).has_bomb := by
    rw [hgrid]
    exact has_bomb_computeAdj _ i j
  have hspec : specAdjBombs r.grid i j = specAdjBombs (lines.map rowOf) i j := by
    rw [hgrid]
    exact specAdjBombs_computeAdj _ i j
  have hcenter : bombAt (lines.map rowOf) ((i : Int) + 0) ((j : Int) + 0)
      = (tileAt (lines.map rowOf) i j).has_bomb :=
    bombAt_center _ i j hiG (by rw [hGhead]; exact hjW)
  have hmain : (tileAt r.grid i j).adj_bombs
      = specAdjBombs r.grid i j + (tileAt r.grid i j).has_bomb.toNat := by
    rw [htile]
    dsimp only
    rw [adjBombs_split, hcenter, hspec]
  have hle : specAdjBombs r.grid i j ≤ 8 := specAdjBombs_le_eight _ i j
  have htn : (tileAt r.grid i j).has_bomb.toNat ≤ 1 := Bool.toNat_le _
  refine ⟨hmain, by omega, ?_⟩
  intro hfalse
  rw [hmain, hfalse]
  simp only [Bool.toNat_false, Nat.add_zero]
  exact ⟨trivial, hle⟩

theorem adj_bombs_neighborhood_w :
    (tileAt demoParseX.grid 0 0).adj_bombs
      = specAdjBombs demoParseX.grid 0 0 + (tileAt demoParseX.grid 0 0).has_bomb.toNat ∧
    (tileAt demoParseX.grid 0 0).adj_bombs ≤ 9 :=
  ⟨(adj_bombs_neighborhood [['x']] demoParseX (by decide) 0 0 (by decide) (by decide)).1,
   (adj_bombs_neighborhood [['x']] demoParseX (by decide) 0 0 (by decide) (by decide)).2.1⟩

/-! ### C9 -/

theorem digitChar_ne_markers (n : Nat) (h : n ≤ 9) :
    Nat.digitChar n ≠ '.' ∧ Nat.digitChar n ≠ '*' := by
  interval_cases n <;> decide

theorem toChar_of_revealed (t : Tile) (hv : t.visibility = Visibility.Revealed)
    (ha : t.adj_bombs ≤ 9) : t.toChar ≠ '.' ∧ t.toChar ≠ '*' := by
  unfold Tile.toChar
  rw [hv]
  by_cases hb : t.has_bomb = true
  · simp [hb]
  · simp only [hb, Bool.false_eq_true, if_false]
    by_cases h0 : t.adj_bombs = 0
    · simp [h0]
    · rw [if_neg h0]
      exact digitChar_ne_markers _ ha

theorem renderAux_length (rs : Grid) (W : Nat) (h : ∀ row ∈ rs, row.length = W) :
    (renderAux rs).length = rs.length * (W + 1) := by
  induction rs with
  | nil => simp [renderAux]
  | cons r rest ih =>
    have hr : r.length = W := h r (by simp)
    have := ih (fun r' h' => h r' (by simp [h']))
    simp only [renderAux, List.length_cons, List.length_append, List.length_map, hr, this]
    ring

theorem renderAux_chars (rs : Grid)
    (h : ∀ row ∈ rs, ∀ t ∈ row, t.visibility = Visibility.Revealed ∧ t.adj_bombs ≤ 9) :
    ∀ c ∈ renderAux rs, c ≠ '.' ∧ c ≠ '*' := by
  induction rs with
  | nil => intro c hc; simp [renderAux] at hc
  | cons r rest ih =>
    intro c hc
    simp only [renderAux, List.mem_cons, List.mem_append, List.mem_map] at hc
    rcases hc with hc | ⟨t, ht, rfl⟩ | hc
    · subst hc; exact ⟨by decide, by decide⟩
    · obtain ⟨hv, ha⟩ := h r (by simp) t ht
      exact toChar_of_revealed t hv ha
    · exact ih (fun r' h' => h r' (by simp [h'])) c hc

/-- C9 counterexample: on the one-bomb input x, parsing, revealing all and
rendering leaves the bomb marker in the text (the revealed bomb tile
renders as the bomb marker), so the rendered text is not free of bomb
markers. -/
theorem render_bomb_marker_cx :
    ((parse_grid [['x']]).toOption.map
      (fun r => (Game.fromParse r).revealAll.render)) = some ['#'] := by
  decide

/-- C9 amended: for every accepted input, parsing, revealing all tiles and
rendering produces exactly one character per tile, rows joined by newline
with no trailing newline (total length is tiles plus height minus one),
and no hidden or flag markers remain; revealed bomb tiles do render as the
bomb marker. -/
theorem render_after_reveal_all (lines : List (List Char)) (r : ParseResult)
    (h : parse_grid lines = Except.ok r) :
    ((Game.fromParse r).revealAll.render).length
      = r.grid.length * (r.grid.headD []).length + (r.grid.length - 1) ∧
    (∀ c ∈ (Game.fromParse r).revealAll.render, c ≠ '.' ∧ c ≠ '*') := by
  obtain ⟨hne, hW, hall, hgrid, _⟩ := parse_grid_ok lines r h
  obtain ⟨hrows, hlenG, hhead, hne2⟩ := parse_grid_rows lines r h
  have hadj : ∀ row ∈ r.grid, ∀ t ∈ row, t.adj_bombs ≤ 9 := by
    rw [hgrid]
    exact computeAdj_adj_le _
  set W := (lines.headD []).length with hWdef
  set g2 := (Game.fromParse r).revealAll with hg2
  have hg2grid : g2.grid = r.grid.map (fun row => row.map
      (fun t => { t with visibility := Visibility.Revealed })) := rfl
  have hrows2 : ∀ row ∈ g2.grid, row.length = W := by
    rw [hg2grid]
    intro row hrow
    obtain ⟨row0, hrow0, rfl⟩ := List.mem_map.mp hrow
    rw [List.length_map]
    exact hrows row0 hrow0
  have htiles2 : ∀ row ∈ g2.grid, ∀ t ∈ row,
      t.visibility = Visibility.Revealed ∧ t.adj_bombs ≤ 9 := by
    rw [hg2grid]
    intro row hrow t ht
    obtain ⟨row0, hrow0, rfl⟩ := List.mem_map.mp hrow
    obtain ⟨t0, ht0, rfl⟩ := List.mem_map.mp ht
    exact ⟨rfl, hadj row0 hrow0 t0 ht0⟩
  have hg2len : g2.grid.length = r.grid.length := by
    rw [hg2grid, List.length_map]
  constructor
  · unfold Game.render
    cases hg : g2.grid with
    | nil =>
      rw [hg] at hg2len
      have : r.grid = [] := List.eq_nil_of_length_eq_zero hg2len.symm
      exact absurd this hne2
    | cons row rest =>
      dsimp only
      have hrowW : row.length = W := hrows2 row (by rw [hg]; simp)
      have hrestW : ∀ r' ∈ rest, r'.length = W :=
        fun r' h' => hrows2 r' (by rw [hg]; simp [h'])
      have hlen : r.grid.length = rest.length + 1 := by
        rw [← hg2len, hg, List.length_cons]
      rw [List.length_append, List.length_map, hrowW, renderAux_length rest W hrestW,
        hlen, hhead]
      ring_nf
      omega
  · unfold Game.render
    cases hg : g2.grid with
    | nil => intro c hc; simp at hc
    | cons row rest =>
      dsimp only
      intro c hc
      rcases List.mem_append.mp hc with hc | hc
      · obtain ⟨t, ht, rfl⟩ := List.mem_map.mp hc
        obtain ⟨hv, ha⟩ := htiles2 row (by rw [hg]; simp) t ht
        exact toChar_of_revealed t hv ha
      · exact renderAux_chars rest
          (fun r' h' => htiles2 r' (by rw [hg]; simp [h'])) c hc

theorem render_after_reveal_all_w :
    ((Game.fromParse demoParseX).revealAll.render).length
      = demoParseX.grid.length * (demoParseX.grid.headD []).length
        + (demoParseX.grid.length - 1) ∧
    ('#' ≠ '.' ∧ '#' ≠ '*') :=
  ⟨(render_after_reveal_all [['x']] demoParseX (by decide)).1,
   (render_after_reveal_all [['x']] demoParseX (by decide)).2 '#' (by decide)⟩

end Mines
